import Mathlib

/-!
# Verification of the dottie persistence layer

Shallow embedding of the repository's persistence modules:

* `DbService` (generic table-agnostic helpers over a knex-style handle),
* the `Assessment` model (dual mode: in-memory store under test mode,
  parameterized SQL against the `assessments` table otherwise),
* the frontend API index modules for assessments and chat
  (re-export wiring and the legacy object-shaped exports).

Modelling conventions:

* JavaScript primitive column values are `Val` (strings and numbers);
  a generic row / JS object is an association list `JsRec` in key
  insertion order, as JS objects enumerate string keys.
* `Date` values are natural-number timestamps; `new Date()` and
  `uuidv4()` are oracle inputs (`now`, `freshId`) passed to each
  operation that evaluates them.
* A fallible datastore connection carries `fail : Option JsError`;
  when it is `some e` every datastore call made through it rejects
  with `e`. Each source method's `try { body } catch (e) { console.error(...);
  throw e }` wrapper logs (a console side effect outside the model) and
  rethrows the error unchanged, so it is the identity on the error path
  of the `Except` value produced by `body`.
* `JSON.stringify` on the opaque assessment payload blob is modelled as
  an injective text encoding `jsonStringify`, with `jsonParse` the
  partial inverse used by `JSON.parse` (which throws on undecodable
  text, modelled by `none`).
-/

/-- A JavaScript error value: either an error produced by the datastore
driver, or a JS-level `Error`/`TypeError` thrown with a message. -/
inductive JsError where
  | dbError (msg : String)
  | jsError (msg : String)
deriving DecidableEq, Repr

/-- Decidable equality of `Except` values, so that concrete operation
outcomes can be checked by `decide`. -/
instance exceptDecEq {ε α : Type} [DecidableEq ε] [DecidableEq α] :
    DecidableEq (Except ε α) := fun x y =>
  match x, y with
  | .error a, .error b => decidable_of_iff (a = b) (by simp)
  | .error _, .ok _ => isFalse (fun hc => Except.noConfusion hc)
  | .ok _, .error _ => isFalse (fun hc => Except.noConfusion hc)
  | .ok a, .ok b => decidable_of_iff (a = b) (by simp)

/-- A primitive JS column value: a string or a number. -/
inductive Val where
  | s (v : String)
  | n (v : Int)
deriving DecidableEq, Repr

/-- JS truthiness of a primitive value (`""` and `0` are falsy). -/
def Val.truthy : Val → Bool
  | .s v => v ≠ ""
  | .n v => v ≠ 0

/-- `<` on primitive values, total across the two kinds (numbers sort
before strings), used to model SQL `ORDER BY` on a column. -/
def Val.ltB : Val → Val → Bool
  | .n a, .n b => a < b
  | .s a, .s b => a < b
  | .n _, .s _ => true
  | .s _, .n _ => false

/-- A generic record / JS object: fields in key insertion order. -/
abbrev JsRec := List (String × Val)

/-- Association-list lookup: the value at the first occurrence of `k`,
i.e. JS property read (`none` is `undefined`). -/
def assocGet {α : Type} : List (String × α) → String → Option α
  | [], _ => none
  | (k0, v0) :: rest, k => if k0 = k then some v0 else assocGet rest k

/-- Association-list write: JS property assignment. Replaces the value
at an existing key in place, else appends the new key at the end. -/
def assocSet {α : Type} : List (String × α) → String → α → List (String × α)
  | [], k, v => [(k, v)]
  | (k0, v0) :: rest, k, v =>
    if k0 = k then (k, v) :: rest else (k0, v0) :: assocSet rest k v

/-- Field read on a generic record: `r[k]`, `none` when absent. -/
def getField (r : JsRec) (k : String) : Option Val := assocGet r k

/-- `ORDER BY key DESC` comparison on optional column values: absent
values (`NULL`) sort below all present values. -/
def optValLt : Option Val → Option Val → Bool
  | none, none => false
  | none, some _ => true
  | some _, none => false
  | some a, some b => a.ltB b

/-- Insert `x` into a descending-sorted list: `x` goes in front of the
first strictly smaller element, keeping the order of equal keys. -/
def descInsert {α : Type} (lt : α → α → Bool) (x : α) : List α → List α
  | [] => [x]
  | y :: ys => if lt y x then x :: y :: ys else y :: descInsert lt x ys

/-- Stable descending insertion sort, modelling SQL `ORDER BY col DESC`. -/
def descSort {α : Type} (lt : α → α → Bool) : List α → List α
  | [] => []
  | y :: ys => descInsert lt y (descSort lt ys)

/-- `ORDER BY key DESC` on generic records. -/
def sortByFieldDesc (k : String) (l : List JsRec) : List JsRec :=
  descSort (fun r1 r2 => optValLt (getField r1 k) (getField r2 k)) l

/-- `.where(k, v)` equality filter of a knex query chain. -/
def whereEq (k : String) (v : Val) (l : List JsRec) : List JsRec :=
  l.filter (fun r => decide (getField r k = some v))

/-- Sequencing of the per-element awaited promises built by
`Promise.all((xs).map(f))`: the results keep input order and the first
rejection rejects the whole call. -/
def exceptMapM {α β : Type} (f : α → Except JsError β) : List α → Except JsError (List β)
  | [] => .ok []
  | a :: as =>
    match f a with
    | .error e => .error e
    | .ok b =>
      match exceptMapM f as with
      | .error e => .error e
      | .ok bs => .ok (b :: bs)

/-- The opaque structured assessment payload blob. -/
abbrev Payload := String

/-- `JSON.stringify` on the opaque payload blob: an injective text
encoding into the `assessment_data` text column. -/
def jsonStringify (p : Payload) : String := "\"" ++ p ++ "\""

/-- `JSON.parse` on the serialized payload text: partial inverse of
`jsonStringify`; `none` models the `SyntaxError` thrown on text that is
not a serialized payload. -/
def jsonParse (s : String) : Option Payload :=
  match s.data with
  | '"' :: rest =>
    if h : rest = [] then none
    else if rest.getLast h = '"' then some (String.mk rest.dropLast) else none
  | _ => none

/-! ## DbService (`services/dbService.js`)

State of the knex-style handle `db`: named tables of generic records,
plus the connection-failure oracle. -/

/-- The knex-style database handle's state. -/
structure DbState where
  tables : List (String × List JsRec)
  fail : Option JsError
deriving DecidableEq, Repr

/-- Rows of table `t` (`db(t)` with no filter). -/
def getTable (st : DbState) (t : String) : List JsRec :=
  (assocGet st.tables t).getD []

/-- Replace the rows of table `t`. -/
def setTable (st : DbState) (t : String) (rows : List JsRec) : DbState :=
  { st with tables := assocSet st.tables t rows }

namespace DbService

/-- `DbService.findById(table, id)`: `db(table).where('id', id).first()`,
then `record || null`. -/
def findById (st : DbState) (table : String) (id : Val) : Except JsError (Option JsRec) :=
  match st.fail with
  | some e => .error e
  | none => .ok (whereEq "id" id (getTable st table)).head?

/-- `DbService.findBy(table, field, value)`:
`db(table).where(field, value)`, then `records || []`. -/
def findBy (st : DbState) (table : String) (field : String) (value : Val) :
    Except JsError (List JsRec) :=
  match st.fail with
  | some e => .error e
  | none => .ok (whereEq field value (getTable st table))

/-- `DbService.create(table, data)`: `db(table).insert(data)` (the
driver returns the new rowid, modelled as the new row count), then a
compatibility `findById(table, data.id || id)` on the updated state. -/
def create (st : DbState) (table : String) (data : JsRec) :
    Except JsError (Option JsRec × DbState) :=
  match st.fail with
  | some e => .error e
  | none =>
    let rowid : Val := .n ((getTable st table).length + 1)
    let st' := setTable st table (getTable st table ++ [data])
    let key : Val :=
      match getField data "id" with
      | some v => if v.truthy then v else rowid
      | none => rowid
    match findById st' table key with
    | .error e => .error e
    | .ok r => .ok (r, st')

/-- JS object-style field overwrite used by `.update(data)`: every field
of `data` is written onto the row. -/
def applyUpdate (data : JsRec) (r : JsRec) : JsRec :=
  data.foldl (fun acc kv => assocSet acc kv.1 kv.2) r

/-- `DbService.update(table, id, data)`:
`db(table).where('id', id).update(data)`, then a compatibility
`findById(table, id)` on the updated state. -/
def update (st : DbState) (table : String) (id : Val) (data : JsRec) :
    Except JsError (Option JsRec × DbState) :=
  match st.fail with
  | some e => .error e
  | none =>
    let st' := setTable st table
      ((getTable st table).map
        (fun r => if getField r "id" = some id then applyUpdate data r else r))
    match findById st' table id with
    | .error e => .error e
    | .ok r => .ok (r, st')

/-- The `option` argument of `DbService.delete`: either a non-object
value (used as the `id`), or a non-null conditions object. -/
inductive DelOption where
  | val (v : Val)
  | obj (conds : JsRec)
deriving DecidableEq, Repr

/-- The row predicate accumulated by the `where` chain of
`DbService.delete`: conjunction of every listed field–value pair for a
conditions object, else equality on the `id` field. -/
def delPred (o : DelOption) (r : JsRec) : Bool :=
  match o with
  | .obj conds => conds.all (fun kv => decide (getField r kv.1 = some kv.2))
  | .val v => decide (getField r "id" = some v)

/-- `DbService.delete(table, option)`: build the `where` chain from
`option`, run `.delete()`, and return `count > 0`. -/
def delete (st : DbState) (table : String) (o : DelOption) :
    Except JsError (Bool × DbState) :=
  match st.fail with
  | some e => .error e
  | none =>
    let tbl := getTable st table
    let count := (tbl.filter (delPred o)).length
    .ok (decide (count > 0),
      setTable st table (tbl.filter (fun r => ! delPred o r)))

/-- `DbService.getAll(table)`: `db(table).select('*')`, then
`records || []`. -/
def getAll (st : DbState) (table : String) : Except JsError (List JsRec) :=
  match st.fail with
  | some e => .error e
  | none => .ok (getTable st table)

/-- One entry of the list built by `getConversationsWithPreviews`
(`undefined` fields representable as `none`). -/
structure Preview where
  id : Option Val
  lastMessageDate : Option Val
  preview : String
deriving DecidableEq, Repr

/-- The latest message of a conversation:
`db('chat_messages').where('conversation_id', conv.id)
.orderBy('created_at', 'desc').first()`. -/
def latestMessage (st : DbState) (convId : Option Val) : Option JsRec :=
  (sortByFieldDesc "created_at"
    ((getTable st "chat_messages").filter
      (fun m => decide (getField m "conversation_id" = convId)))).head?

/-- The per-conversation body of the `Promise.all` fan-out: fetch the
latest message and build the preview entry;
`latestMessage.content.substring(0, 50)` throws a `TypeError` when
`content` is not a string. -/
def previewOf (st : DbState) (conv : JsRec) : Except JsError Preview :=
  match latestMessage st (getField conv "id") with
  | none => .ok ⟨getField conv "id", getField conv "updated_at", ""⟩
  | some m =>
    match getField m "content" with
    | some (.s c) => .ok ⟨getField conv "id", getField conv "updated_at", c.take 50⟩
    | _ => .error (.jsError "TypeError: latestMessage.content.substring is not a function")

/-- `DbService.getConversationsWithPreviews(userId)`: the user's
conversations ordered by `updated_at` descending, then the parallel
per-conversation latest-message fetch reassembled in conversation
order by `Promise.all`. -/
def getConversationsWithPreviews (st : DbState) (userId : Val) :
    Except JsError (List Preview) :=
  match st.fail with
  | some e => .error e
  | none =>
    let convs := sortByFieldDesc "updated_at"
      (whereEq "user_id" userId (getTable st "conversations"))
    exceptMapM (previewOf st) convs

end DbService

/-! ## Assessment model (`backend/models/Assessment.js`)

The module keeps a test-mode in-memory store `testAssessments` (an
object keyed by generated id) and otherwise issues parameterized SQL
against the `assessments` table. The module-level flag `isTestMode` is
a parameter `tm` of each operation. -/

/-- An in-memory / returned assessment object (camelCase fields). -/
structure TestRec where
  id : String
  userId : String
  assessmentData : Payload
  createdAt : Nat
  updatedAt : Nat
deriving DecidableEq, Repr

/-- A raw row of the `assessments` table (snake_case columns;
`assessment_data` holds the `JSON.stringify` text). -/
structure Row where
  id : String
  user_id : String
  assessment_data : String
  created_at : Nat
  updated_at : Nat
deriving DecidableEq, Repr

/-- State visible to the Assessment model: the in-memory
`testAssessments` object, the `assessments` table behind `db.query`,
and the connection-failure oracle for `db.query`. -/
structure AmState where
  testAssessments : List (String × TestRec)
  assessmentsTable : List Row
  fail : Option JsError
deriving DecidableEq, Repr

/-- What `Assessment.findById` resolves with when it finds something:
the in-memory object (which has an `assessmentData` field), or the raw
database row (which only has the `assessment_data` column; reading
`assessmentData` on it yields `undefined`). -/
inductive Found where
  | mem (r : TestRec)
  | row (r : Row)
deriving DecidableEq, Repr

/-- Reading the `assessmentData` property of a found record:
`undefined` (`none`) on a raw database row. -/
def Found.assessmentData? : Found → Option Payload
  | .mem r => some r.assessmentData
  | .row _ => none

/-- The raw row underneath a found record, if it is one. -/
def Found.rowOf? : Found → Option Row
  | .mem _ => none
  | .row r => some r

namespace Assessment

/-- The `SELECT * FROM assessments WHERE id = ?` branch of
`Assessment.findById`, returning the first row or `null`. -/
def findByIdQuery (st : AmState) (id : String) : Except JsError (Option Row) :=
  match st.fail with
  | some e => .error e
  | none => .ok ((st.assessmentsTable.filter (fun r => decide (r.id = id))).head?)

/-- `Assessment.findById(id)`: when `isTestMode && testAssessments[id]`
is truthy return the in-memory object, else run the SQL query. -/
def findById (tm : Bool) (st : AmState) (id : String) : Except JsError (Option Found) :=
  match (if tm then assocGet st.testAssessments id else none) with
  | some r => .ok (some (.mem r))
  | none =>
    match findByIdQuery st id with
    | .error e => .error e
    | .ok r => .ok (r.map .row)

/-- `Assessment.create(assessmentData, userId)`: generate `id` and
`now`, then either store the object in `testAssessments`, or run the
`INSERT` (serializing the payload) — returning the same object shape
in both modes. -/
def create (tm : Bool) (st : AmState) (assessmentData : Payload) (userId : String)
    (freshId : String) (now : Nat) : Except JsError (TestRec × AmState) :=
  let created : TestRec :=
    { id := freshId, userId := userId, assessmentData := assessmentData,
      createdAt := now, updatedAt := now }
  if tm then
    .ok (created,
      { st with testAssessments := assocSet st.testAssessments freshId created })
  else
    match st.fail with
    | some e => .error e
    | none =>
      .ok (created,
        { st with assessmentsTable := st.assessmentsTable ++
            [{ id := freshId, user_id := userId,
               assessment_data := jsonStringify assessmentData,
               created_at := now, updated_at := now }] })

/-- A production-mode `listByUser` entry: the raw row spread together
with the parsed `assessmentData` field. -/
structure ListedRow where
  row : Row
  assessmentData : Payload
deriving DecidableEq, Repr

/-- An entry of the list returned by `Assessment.listByUser`. -/
inductive Listed where
  | mem (r : TestRec)
  | prod (r : ListedRow)
deriving DecidableEq, Repr

/-- The owning user identifier carried by a listed entry. -/
def Listed.ownerId : Listed → String
  | .mem r => r.userId
  | .prod r => r.row.user_id

/-- `ORDER BY created_at DESC` on assessment rows. -/
def sortRowsByCreatedDesc (l : List Row) : List Row :=
  descSort (fun r1 r2 => decide (r1.created_at < r2.created_at)) l

/-- `Assessment.listByUser(userId)`: filter `Object.values` of the
in-memory store in test mode; else `SELECT ... WHERE user_id = ? ORDER
BY created_at DESC` and map each row to `{...row, assessmentData:
JSON.parse(row.assessment_data)}` (the parse throws on undecodable
column text). -/
def listByUser (tm : Bool) (st : AmState) (userId : String) :
    Except JsError (List Listed) :=
  if tm then
    .ok (((st.testAssessments.map (fun p => p.2)).filter
      (fun r => decide (r.userId = userId))).map .mem)
  else
    match st.fail with
    | some e => .error e
    | none =>
      exceptMapM
        (fun r =>
          match jsonParse r.assessment_data with
          | some p => .ok (.prod ⟨r, p⟩)
          | none => .error (.jsError "SyntaxError: Unexpected token in JSON"))
        (sortRowsByCreatedDesc
          (st.assessmentsTable.filter (fun r => decide (r.user_id = userId))))

/-- The production-mode return value of `Assessment.update`:
`{...updatedAssessment, assessmentData}`, where `updatedAssessment` is
the re-fetched row or `null` (spreading `null` contributes no fields). -/
structure ProdUpdated where
  base : Option Row
  assessmentData : Payload
deriving DecidableEq, Repr

/-- The return value of `Assessment.update`. -/
inductive Updated where
  | mem (r : TestRec)
  | prod (r : ProdUpdated)
deriving DecidableEq, Repr

/-- `Assessment.update(id, assessmentData)`: in test mode throw a
generic `Error` when the id is absent, else overwrite the stored object
with `{...old, assessmentData, updatedAt: now}`; in production run the
`UPDATE` (serializing the payload, refreshing `updated_at`), re-fetch
with `findById`, and return the spread of the fetch with the new
payload. -/
def update (tm : Bool) (st : AmState) (id : String) (assessmentData : Payload)
    (now : Nat) : Except JsError (Updated × AmState) :=
  if tm then
    match assocGet st.testAssessments id with
    | none => .error (.jsError ("Assessment with ID " ++ id ++ " not found"))
    | some old =>
      let newRec : TestRec :=
        { old with assessmentData := assessmentData, updatedAt := now }
      .ok (.mem newRec,
        { st with testAssessments := assocSet st.testAssessments id newRec })
  else
    match st.fail with
    | some e => .error e
    | none =>
      let newTable := st.assessmentsTable.map (fun r =>
        if r.id = id then
          { r with
            assessment_data := jsonStringify assessmentData
            updated_at := now }
        else r)
      let st' := { st with assessmentsTable := newTable }
      match findById false st' id with
      | .error e => .error e
      | .ok found =>
        .ok (.prod ⟨found.bind Found.rowOf?, assessmentData⟩, st')

/-- `Assessment.delete(id)`: in test mode throw a generic `Error` when
the id is absent, else remove the key; in production run the `DELETE`
and resolve `true` either way. -/
def delete (tm : Bool) (st : AmState) (id : String) :
    Except JsError (Bool × AmState) :=
  if tm then
    match assocGet st.testAssessments id with
    | none => .error (.jsError ("Assessment with ID " ++ id ++ " not found"))
    | some _ =>
      .ok (true,
        { st with testAssessments :=
            st.testAssessments.filter (fun p => decide (p.1 ≠ id)) })
  else
    match st.fail with
    | some e => .error e
    | none =>
      .ok (true,
        { st with assessmentsTable :=
            st.assessmentsTable.filter (fun r => decide (r.id ≠ id)) })

end Assessment

/-! ## Frontend API index modules

The two index modules only wire imports to exports: the imported
request helpers are opaque distinct functions `RequestFn`, and each
module's legacy object-shaped export collects them by field. -/

/-- The request helper functions imported by the two index modules. -/
inductive RequestFn where
  | getList
  | getById
  | postSend
  | putUpdate
  | deleteAssessment
  | sendMessage
  | getHistory
  | getConversation
  | deleteConversation
deriving DecidableEq, Repr

/-- The legacy `assessmentApi` object's shape. -/
structure AssessmentApiObj where
  list : RequestFn
  getById : RequestFn
  sendAssessment : RequestFn
  update : RequestFn
  delete : RequestFn
deriving DecidableEq, Repr

/-- `export const assessmentApi = { list: getList, getById, sendAssessment:
postSend, update: putUpdate, delete: deleteAssessment }`. -/
def assessmentApi : AssessmentApiObj :=
  { list := .getList, getById := .getById, sendAssessment := .postSend,
    update := .putUpdate, delete := .deleteAssessment }

/-- `export default assessmentApi`. -/
def assessmentIndexDefault : AssessmentApiObj := assessmentApi

/-- Named export `getList`. -/
def exportGetList : RequestFn := .getList

/-- Named export `getById`. -/
def exportGetById : RequestFn := .getById

/-- Named export `postSend as sendAssessment`. -/
def exportSendAssessment : RequestFn := .postSend

/-- Named export `putUpdate as update`. -/
def exportPutUpdate : RequestFn := .putUpdate

/-- Named export `deleteAssessment`. -/
def exportDeleteAssessment : RequestFn := .deleteAssessment

/-- The legacy `chatApi` object's shape. -/
structure ChatApiObj where
  sendMessage : RequestFn
  getHistory : RequestFn
  getConversation : RequestFn
  deleteConversation : RequestFn
deriving DecidableEq, Repr

/-- `export const chatApi = { sendMessage, getHistory, getConversation,
deleteConversation }`. -/
def chatApi : ChatApiObj :=
  { sendMessage := .sendMessage, getHistory := .getHistory,
    getConversation := .getConversation, deleteConversation := .deleteConversation }

/-- `export default chatApi`. -/
def chatIndexDefault : ChatApiObj := chatApi

/-- Named export `sendMessage`. -/
def exportSendMessage : RequestFn := .sendMessage

/-- Named export `getHistory`. -/
def exportGetHistory : RequestFn := .getHistory

/-- Named export `getConversation`. -/
def exportGetConversation : RequestFn := .getConversation

/-- Named export `deleteConversation`. -/
def exportDeleteConversation : RequestFn := .deleteConversation

/-! ## Helper lemmas -/

theorem assocGet_assocSet_self {α : Type} (l : List (String × α)) (k : String) (v : α) :
    assocGet (assocSet l k v) k = some v := by
  induction l with
  | nil => simp [assocSet, assocGet]
  | cons hd tl ih =>
    obtain ⟨k0, v0⟩ := hd
    by_cases h : k0 = k
    · simp [assocSet, assocGet, h]
    · simp [assocSet, assocGet, h, ih]

theorem assocGet_assocSet_ne {α : Type} (l : List (String × α)) (k k' : String) (v : α)
    (h : k' ≠ k) : assocGet (assocSet l k v) k' = assocGet l k' := by
  induction l with
  | nil => simp [assocSet, assocGet, Ne.symm h]
  | cons hd tl ih =>
    obtain ⟨k0, v0⟩ := hd
    by_cases h0 : k0 = k
    · subst h0
      simp [assocSet, assocGet, Ne.symm h]
    · simp [assocSet, assocGet, h0, ih]

theorem assocGet_filter_ne {α : Type} (l : List (String × α)) (k : String) :
    assocGet (l.filter (fun p => ! decide (p.1 = k))) k = none := by
  induction l with
  | nil => rfl
  | cons hd tl ih =>
    obtain ⟨k0, v0⟩ := hd
    by_cases h0 : k0 = k
    · simpa [List.filter_cons, h0] using ih
    · simpa [List.filter_cons, h0, assocGet] using ih

theorem mem_descInsert {α : Type} (lt : α → α → Bool) (x a : α) (l : List α) :
    a ∈ descInsert lt x l ↔ a = x ∨ a ∈ l := by
  induction l with
  | nil => simp [descInsert]
  | cons y ys ih =>
    cases hxy : lt y x with
    | true => simp [descInsert, hxy]
    | false =>
      simp [descInsert, hxy, ih]
      tauto

theorem mem_descSort {α : Type} (lt : α → α → Bool) (a : α) (l : List α) :
    a ∈ descSort lt l ↔ a ∈ l := by
  induction l with
  | nil => simp [descSort]
  | cons y ys ih => simp [descSort, mem_descInsert, ih]

theorem length_descInsert {α : Type} (lt : α → α → Bool) (x : α) (l : List α) :
    (descInsert lt x l).length = l.length + 1 := by
  induction l with
  | nil => rfl
  | cons y ys ih =>
    cases hxy : lt y x with
    | true => simp [descInsert, hxy]
    | false => simp [descInsert, hxy, ih]

theorem length_descSort {α : Type} (lt : α → α → Bool) (l : List α) :
    (descSort lt l).length = l.length := by
  induction l with
  | nil => rfl
  | cons y ys ih => simp [descSort, length_descInsert, ih]

theorem exceptMapM_ok_mem {α β : Type} (f : α → Except JsError β) (l : List α)
    (out : List β) (h : exceptMapM f l = .ok out) :
    ∀ b ∈ out, ∃ a ∈ l, f a = .ok b := by
  induction l generalizing out with
  | nil =>
    simp only [exceptMapM, Except.ok.injEq] at h
    subst h
    simp
  | cons a as ih =>
    intro b hb
    cases hfa : f a with
    | error e => simp [exceptMapM, hfa] at h
    | ok b0 =>
      cases hrec : exceptMapM f as with
      | error e => simp [exceptMapM, hfa, hrec] at h
      | ok bs =>
        simp only [exceptMapM, hfa, hrec, Except.ok.injEq] at h
        subst h
        rcases List.mem_cons.mp hb with hb0 | hbs
        · exact ⟨a, List.mem_cons_self a as, hb0 ▸ hfa⟩
        · obtain ⟨a', ha', hfa'⟩ := ih bs hrec b hbs
          exact ⟨a', List.mem_cons_of_mem a ha', hfa'⟩

theorem exceptMapM_ok_of_forall {α β : Type} (f : α → Except JsError β) (l : List α)
    (h : ∀ a ∈ l, ∃ b, f a = .ok b) :
    ∃ out, exceptMapM f l = .ok out ∧ out.length = l.length ∧
      ∀ i (h1 : i < l.length) (h2 : i < out.length),
        f (l.get ⟨i, h1⟩) = .ok (out.get ⟨i, h2⟩) := by
  induction l with
  | nil => exact ⟨[], rfl, rfl, fun i h1 _ => absurd h1 (Nat.not_lt_zero i)⟩
  | cons a as ih =>
    obtain ⟨b, hb⟩ := h a (List.mem_cons_self a as)
    obtain ⟨out, hout, hlen, hidx⟩ := ih (fun x hx => h x (List.mem_cons_of_mem a hx))
    refine ⟨b :: out, ?_, by simp [hlen], ?_⟩
    · simp [exceptMapM, hb, hout]
    · intro i h1 h2
      match i with
      | 0 => simpa using hb
      | Nat.succ j =>
        simpa using hidx j (Nat.lt_of_succ_lt_succ h1) (Nat.lt_of_succ_lt_succ h2)

theorem map_eq_self_of {α : Type} (f : α → α) (l : List α) (h : ∀ x ∈ l, f x = x) :
    l.map f = l := by
  induction l with
  | nil => rfl
  | cons a as ih =>
    simp [h a (List.mem_cons_self a as),
      ih (fun x hx => h x (List.mem_cons_of_mem a hx))]

theorem filter_eq_nil_of {α : Type} (p : α → Bool) (l : List α)
    (h : ∀ x ∈ l, p x = false) : l.filter p = [] := by
  induction l with
  | nil => rfl
  | cons a as ih =>
    simp [List.filter_cons, h a (List.mem_cons_self a as),
      ih (fun x hx => h x (List.mem_cons_of_mem a hx))]

theorem get_map_eq {α β : Type} (f : α → β) (l : List α) (i : Nat)
    (h1 : i < l.length) (h2 : i < (l.map f).length) :
    (l.map f).get ⟨i, h2⟩ = f (l.get ⟨i, h1⟩) := by
  simp [List.get_eq_getElem, List.getElem_map]

theorem getTable_setTable_self (st : DbState) (t : String) (rows : List JsRec) :
    getTable (setTable st t rows) t = rows := by
  simp [getTable, setTable, assocGet_assocSet_self]

theorem getTable_setTable_ne (st : DbState) (t t' : String) (rows : List JsRec)
    (h : t' ≠ t) : getTable (setTable st t rows) t' = getTable st t' := by
  simp [getTable, setTable, assocGet_assocSet_ne _ _ _ _ h]

/-! ## Concrete states used by witnesses and counterexamples -/

/-- Empty Assessment-model state with a healthy connection. -/
def stEmptyA : AmState :=
  { testAssessments := [], assessmentsTable := [], fail := none }

/-- Assessment-model state whose datastore connection fails. -/
def stFailA : AmState :=
  { testAssessments := [], assessmentsTable := [], fail := some (.dbError "boom") }

/-- DbService state whose datastore connection fails. -/
def stFailDb : DbState := { tables := [], fail := some (.dbError "boom") }

/-! ## Claims -/

/-- C8: the legacy object-shaped exports are equivalent to the
individually exported functions: every field of `assessmentApi` (list,
getById, sendAssessment, update, delete) is the same function as the
corresponding individual export (getList, getById, postSend, putUpdate,
deleteAssessment), every field of `chatApi` is the same function as the
corresponding individual export, and each module's default export is
that legacy object. -/
theorem c8_legacy_exports_equiv :
    assessmentApi.list = exportGetList ∧
    assessmentApi.getById = exportGetById ∧
    assessmentApi.sendAssessment = exportSendAssessment ∧
    assessmentApi.update = exportPutUpdate ∧
    assessmentApi.delete = exportDeleteAssessment ∧
    assessmentIndexDefault = assessmentApi ∧
    chatApi.sendMessage = exportSendMessage ∧
    chatApi.getHistory = exportGetHistory ∧
    chatApi.getConversation = exportGetConversation ∧
    chatApi.deleteConversation = exportDeleteConversation ∧
    chatIndexDefault = chatApi :=
  ⟨rfl, rfl, rfl, rfl, rfl, rfl, rfl, rfl, rfl, rfl, rfl⟩

/-- C10: every successful `Assessment.create` returns a record whose id
is exactly the freshly generated UUID (the `uuidv4()` oracle output,
whatever the caller-supplied payload and user id are) and whose
`createdAt` equals its `updatedAt` (both the generation-time `now`), in
test mode and in production mode alike. -/
theorem c10_create_id_and_timestamps (tm : Bool) (st : AmState) (p : Payload)
    (u fid : String) (t : Nat) (res : TestRec × AmState)
    (h : Assessment.create tm st p u fid t = .ok res) :
    res.1.id = fid ∧ res.1.createdAt = res.1.updatedAt ∧ res.1.createdAt = t := by
  cases tm with
  | true =>
    simp only [Assessment.create, if_true] at h
    rw [Except.ok.injEq] at h
    subst h
    exact ⟨rfl, rfl, rfl⟩
  | false =>
    cases hf : st.fail with
    | some e => simp [Assessment.create, hf] at h
    | none =>
      simp only [Assessment.create, hf, Bool.false_eq_true, if_false] at h
      rw [Except.ok.injEq] at h
      subst h
      exact ⟨rfl, rfl, rfl⟩

/-- Witness for C10 at a concrete test-mode create. -/
theorem c10_create_id_and_timestamps_witness :
    Assessment.create true stEmptyA "p" "u" "uuid-1" 5 =
      .ok (⟨"uuid-1", "u", "p", 5, 5⟩,
        { testAssessments := [("uuid-1", ⟨"uuid-1", "u", "p", 5, 5⟩)],
          assessmentsTable := [], fail := none }) ∧
    (((⟨"uuid-1", "u", "p", 5, 5⟩ : TestRec),
        ({ testAssessments := [("uuid-1", ⟨"uuid-1", "u", "p", 5, 5⟩)],
           assessmentsTable := [], fail := none } : AmState)).1.id = "uuid-1" ∧
      ((⟨"uuid-1", "u", "p", 5, 5⟩ : TestRec),
        ({ testAssessments := [("uuid-1", ⟨"uuid-1", "u", "p", 5, 5⟩)],
           assessmentsTable := [], fail := none } : AmState)).1.createdAt =
        ((⟨"uuid-1", "u", "p", 5, 5⟩ : TestRec),
        ({ testAssessments := [("uuid-1", ⟨"uuid-1", "u", "p", 5, 5⟩)],
           assessmentsTable := [], fail := none } : AmState)).1.updatedAt ∧
      ((⟨"uuid-1", "u", "p", 5, 5⟩ : TestRec),
        ({ testAssessments := [("uuid-1", ⟨"uuid-1", "u", "p", 5, 5⟩)],
           assessmentsTable := [], fail := none } : AmState)).1.createdAt = 5) :=
  ⟨by decide, c10_create_id_and_timestamps true stEmptyA "p" "u" "uuid-1" 5 _ (by decide)⟩

/-- C7: when the underlying datastore connection fails with an error e,
every DbService operation and every Assessment-model operation that
reaches its datastore call rejects with that same e unchanged — the
catch handler only logs (a console effect) and rethrows. The
Assessment model's test-mode branches of create / listByUser / update /
delete never reach a datastore call; its findById does exactly when the
in-memory store misses. -/
theorem c7_error_propagation_unchanged (e : JsError) (st2 : DbState) (st : AmState)
    (h2 : st2.fail = some e) (h : st.fail = some e) :
    (∀ tbl v, DbService.findById st2 tbl v = .error e) ∧
    (∀ tbl f v, DbService.findBy st2 tbl f v = .error e) ∧
    (∀ tbl data, DbService.create st2 tbl data = .error e) ∧
    (∀ tbl v data, DbService.update st2 tbl v data = .error e) ∧
    (∀ tbl o, DbService.delete st2 tbl o = .error e) ∧
    (∀ tbl, DbService.getAll st2 tbl = .error e) ∧
    (∀ u, DbService.getConversationsWithPreviews st2 u = .error e) ∧
    (∀ id tm, assocGet st.testAssessments id = none →
      Assessment.findById tm st id = .error e) ∧
    (∀ p u fid t, Assessment.create false st p u fid t = .error e) ∧
    (∀ u, Assessment.listByUser false st u = .error e) ∧
    (∀ id p t, Assessment.update false st id p t = .error e) ∧
    (∀ id, Assessment.delete false st id = .error e) := by
  refine ⟨?_, ?_, ?_, ?_, ?_, ?_, ?_, ?_, ?_, ?_, ?_, ?_⟩
  · intro tbl v
    simp [DbService.findById, h2]
  · intro tbl f v
    simp [DbService.findBy, h2]
  · intro tbl data
    simp [DbService.create, h2]
  · intro tbl v data
    simp [DbService.update, h2]
  · intro tbl o
    simp [DbService.delete, h2]
  · intro tbl
    simp [DbService.getAll, h2]
  · intro u
    simp [DbService.getConversationsWithPreviews, h2]
  · intro id tm hmiss
    cases tm <;>
      simp [Assessment.findById, Assessment.findByIdQuery, hmiss, h]
  · intro p u fid t
    simp [Assessment.create, h]
  · intro u
    simp [Assessment.listByUser, h]
  · intro id p t
    simp [Assessment.update, h]
  · intro id
    simp [Assessment.delete, h]

/-- Witness for C7 at a concrete failing connection. -/
theorem c7_error_propagation_unchanged_witness :
    stFailDb.fail = some (.dbError "boom") ∧
    stFailA.fail = some (.dbError "boom") ∧
    DbService.findById stFailDb "users" (.s "1") = .error (.dbError "boom") ∧
    Assessment.create false stFailA "p" "u" "uuid-1" 5 = .error (.dbError "boom") :=
  ⟨rfl, rfl,
    (c7_error_propagation_unchanged (.dbError "boom") stFailDb stFailA rfl rfl).1
      "users" (.s "1"),
    (c7_error_propagation_unchanged (.dbError "boom") stFailDb stFailA rfl
      rfl).2.2.2.2.2.2.2.2.1 "p" "u" "uuid-1" 5⟩

theorem filter_contra {α : Type} (p q : α → Bool) (l : List α)
    (h : ∀ x ∈ l, q x = true → p x = false) : (l.filter q).filter p = [] := by
  apply filter_eq_nil_of
  intro x hx
  rcases List.mem_filter.mp hx with ⟨hmem, hq⟩
  exact h x hmem hq

/-- The raw `assessments` row produced by the production-mode create of
payload `"p"` for user `"u"` with generated id `"id1"` at time 0. -/
def rowC1 : Row := ⟨"id1", "u", jsonStringify "p", 0, 0⟩

/-- The Assessment-model state after that production-mode create. -/
def stC1 : AmState :=
  { testAssessments := [], assessmentsTable := [rowC1], fail := none }

/-- C1 (counterexample): in production mode, creating an assessment and
reading it back with `findById` yields the raw database row; reading
its `assessmentData` property gives `undefined` (the payload lives
serialized in the `assessment_data` column instead), so the read-back
logical payload is not the created payload. -/
theorem c1_roundtrip_counterexample :
    Assessment.create false stEmptyA "p" "u" "id1" 0 =
      .ok (⟨"id1", "u", "p", 0, 0⟩, stC1) ∧
    Assessment.findById false stC1 "id1" = .ok (some (.row rowC1)) ∧
    Found.assessmentData? (.row rowC1) ≠ some "p" :=
  ⟨by decide, by decide, by decide⟩

/-- C1 (amended): create→findById round-trips the logical payload in
test mode: the read-back record is the created record and its
`assessmentData` equals the created payload. In production mode (with a
healthy connection and a fresh generated id) the read-back is instead
the raw row whose `assessment_data` column is the serialization of the
payload; no `assessmentData` field is exposed on it. -/
theorem c1_roundtrip_amended (st : AmState) (p : Payload) (u fid : String) (t : Nat)
    (hfresh : ∀ r ∈ st.assessmentsTable, r.id ≠ fid) (hfail : st.fail = none) :
    (∀ res, Assessment.create true st p u fid t = .ok res →
      Assessment.findById true res.2 fid = .ok (some (.mem res.1)) ∧
      res.1.assessmentData = p) ∧
    (∀ res, Assessment.create false st p u fid t = .ok res →
      Assessment.findById false res.2 fid =
        .ok (some (.row ⟨fid, u, jsonStringify p, t, t⟩))) := by
  constructor
  · intro res h
    simp only [Assessment.create, if_true] at h
    rw [Except.ok.injEq] at h
    subst h
    refine ⟨?_, rfl⟩
    simp [Assessment.findById, assocGet_assocSet_self]
  · intro res h
    simp only [Assessment.create, hfail, Bool.false_eq_true, if_false] at h
    rw [Except.ok.injEq] at h
    subst h
    have h1 : st.assessmentsTable.filter (fun r => decide (r.id = fid)) = [] := by
      apply filter_eq_nil_of
      intro r hr
      simp [hfresh r hr]
    simp [Assessment.findById, Assessment.findByIdQuery, hfail, List.filter_append, h1]

/-- Witness for C1 (amended) at a concrete empty state. -/
theorem c1_roundtrip_amended_witness :
    (∀ r ∈ stEmptyA.assessmentsTable, r.id ≠ "id1") ∧ stEmptyA.fail = none ∧
    Assessment.findById false stC1 "id1" =
      .ok (some (.row ⟨"id1", "u", jsonStringify "p", 0, 0⟩)) :=
  ⟨by decide, rfl,
    (c1_roundtrip_amended stEmptyA "p" "u" "id1" 0 (by decide) rfl).2
      (⟨"id1", "u", "p", 0, 0⟩, stC1) (by decide)⟩

/-- A test-mode record and a production row sharing the id `"a"`. -/
def recC2 : TestRec := ⟨"a", "u", "p", 0, 0⟩

/-- A stale `assessments` row with the same id `"a"`. -/
def rowC2 : Row := ⟨"a", "v", "zzz", 1, 1⟩

/-- Test-mode state where the store and the table both hold id `"a"`. -/
def stC2 : AmState :=
  { testAssessments := [("a", recC2)], assessmentsTable := [rowC2], fail := none }

/-- The state after deleting `"a"` from the in-memory store of `stC2`. -/
def stC2del : AmState :=
  { testAssessments := [], assessmentsTable := [rowC2], fail := none }

/-- C2 (counterexample): in test mode `Assessment.delete` only removes
the in-memory entry, and the subsequent `findById` falls through to the
database query — which can still return a row with that id, so the
find after a successful delete is not null. -/
theorem c2_delete_then_find_counterexample :
    Assessment.delete true stC2 "a" = .ok (true, stC2del) ∧
    Assessment.findById true stC2del "a" = .ok (some (.row rowC2)) ∧
    Assessment.findById true stC2del "a" ≠ .ok none :=
  ⟨by decide, by decide, by decide⟩

/-- C2 (amended): after a successful `Assessment.delete(id)`,
`findById(id)` returns null in production mode unconditionally, and in
test mode provided the underlying `assessments` table holds no row with
that id (the test-mode lookup falls through to the database query once
the in-memory entry is gone); after `DbService.delete(table, id)`
resolves, `DbService.findById(table, id)` returns null. -/
theorem c2_delete_then_find_amended (st : AmState) (id : String) (st2 : DbState)
    (tbl : String) (v : Val) (hfail : st.fail = none) (hfail2 : st2.fail = none) :
    (∀ res, Assessment.delete false st id = .ok res →
      Assessment.findById false res.2 id = .ok none) ∧
    ((∀ r ∈ st.assessmentsTable, r.id ≠ id) →
      ∀ res, Assessment.delete true st id = .ok res →
        Assessment.findById true res.2 id = .ok none) ∧
    (∀ res, DbService.delete st2 tbl (.val v) = .ok res →
      DbService.findById res.2 tbl v = .ok none) := by
  refine ⟨?_, ?_, ?_⟩
  · intro res h
    simp only [Assessment.delete, hfail, Bool.false_eq_true, if_false] at h
    rw [Except.ok.injEq] at h
    subst h
    have h1 : (st.assessmentsTable.filter (fun r => decide (r.id ≠ id))).filter
        (fun r => decide (r.id = id)) = [] := by
      apply filter_contra
      intro r _ hq
      simp at hq
      simp [hq]
    simp [Assessment.findById, Assessment.findByIdQuery, hfail, h1]
  · intro hnorow res h
    simp only [Assessment.delete, if_true] at h
    cases hget : assocGet st.testAssessments id with
    | none => simp [hget] at h
    | some old =>
      simp only [hget] at h
      rw [Except.ok.injEq] at h
      subst h
      have h1 : st.assessmentsTable.filter (fun r => decide (r.id = id)) = [] := by
        apply filter_eq_nil_of
        intro r hr
        simp [hnorow r hr]
      simp [Assessment.findById, Assessment.findByIdQuery, hfail, h1, assocGet_filter_ne]
  · intro res h
    simp only [DbService.delete, hfail2] at h
    rw [Except.ok.injEq] at h
    subst h
    have h1 : ((getTable st2 tbl).filter
          (fun r => ! DbService.delPred (.val v) r)).filter
        (fun r => decide (getField r "id" = some v)) = [] := by
      apply filter_contra
      intro r _ hq
      simp [DbService.delPred] at hq
      simp [DbService.delPred, hq]
    simp [DbService.findById, setTable, whereEq, getTable, assocGet_assocSet_self,
      hfail2]
    simpa [whereEq, getTable, assocGet_assocSet_self] using h1

/-- DbService state with no tables and a healthy connection. -/
def stDbEmpty : DbState := { tables := [], fail := none }

/-- Witness for C2 (amended) at concrete states. -/
theorem c2_delete_then_find_amended_witness :
    stEmptyA.fail = none ∧ stDbEmpty.fail = none ∧
    Assessment.findById false stEmptyA "a" = .ok none :=
  ⟨rfl, rfl,
    (c2_delete_then_find_amended stEmptyA "a" stDbEmpty "t" (.s "a") rfl rfl).1
      (true, stEmptyA) (by decide)⟩

theorem filter_eq_self_of {α : Type} (p : α → Bool) (l : List α)
    (h : ∀ x ∈ l, p x = true) : l.filter p = l := by
  induction l with
  | nil => rfl
  | cons a as ih =>
    simp [List.filter_cons, h a (List.mem_cons_self a as),
      ih (fun x hx => h x (List.mem_cons_of_mem a hx))]

/-- Production-mode `Assessment.findById` on a healthy connection never
rejects: it returns the first matching row (or null) wrapped in ok. -/
theorem findById_prod_eq (st : AmState) (id : String) (h : st.fail = none) :
    Assessment.findById false st id =
      .ok ((st.assessmentsTable.filter (fun r => decide (r.id = id))).head?.map .row) := by
  simp [Assessment.findById, Assessment.findByIdQuery, h]

/-- C3: on an id that is not present, `Assessment.update` and
`Assessment.delete` raise a generic `Error` in test mode; in production
mode neither raises — update resolves with the spread-of-null object
(just the new payload, no row fields) and delete resolves `true`, while
`DbService.delete` resolves with the plain boolean `false` — so the
caller gets no typed not-found signal. -/
theorem c3_notfound_handling (st : AmState) (id : String) (p : Payload) (t : Nat)
    (st2 : DbState) (tbl : String) (v : Val)
    (hmiss : assocGet st.testAssessments id = none)
    (hfail : st.fail = none)
    (hnorow : ∀ r ∈ st.assessmentsTable, r.id ≠ id)
    (hfail2 : st2.fail = none)
    (hnorec : ∀ r ∈ getTable st2 tbl, getField r "id" ≠ some v) :
    Assessment.update true st id p t =
      .error (.jsError ("Assessment with ID " ++ id ++ " not found")) ∧
    Assessment.delete true st id =
      .error (.jsError ("Assessment with ID " ++ id ++ " not found")) ∧
    Assessment.update false st id p t = .ok (.prod ⟨none, p⟩, st) ∧
    Assessment.delete false st id = .ok (true, st) ∧
    (∃ st', DbService.delete st2 tbl (.val v) = .ok (false, st')) := by
  refine ⟨?_, ?_, ?_, ?_, ?_⟩
  · simp [Assessment.update, hmiss]
  · simp [Assessment.delete, hmiss]
  · obtain ⟨ta, at0, fl⟩ := st
    have hfl : fl = none := hfail
    subst hfl
    have hmap : at0.map (fun r =>
        if r.id = id then
          { r with assessment_data := jsonStringify p, updated_at := t }
        else r) = at0 :=
      map_eq_self_of _ _ (fun r hr => by simp [hnorow r hr])
    have h1 : at0.filter (fun r => decide (r.id = id)) = [] := by
      apply filter_eq_nil_of
      intro r hr
      simp [hnorow r hr]
    simp only [Assessment.update, Bool.false_eq_true, if_false, hmap]
    rw [findById_prod_eq ⟨ta, at0, none⟩ id rfl]
    simp [h1, Found.rowOf?]
  · obtain ⟨ta, at0, fl⟩ := st
    have hfl : fl = none := hfail
    subst hfl
    have h2 : at0.filter (fun r => ! decide (r.id = id)) = at0 :=
      filter_eq_self_of _ _ (fun r hr => by simp [hnorow r hr])
    simp [Assessment.delete, h2]
  · have h3 : (getTable st2 tbl).filter (DbService.delPred (.val v)) = [] := by
      apply filter_eq_nil_of
      intro r hr
      simp [DbService.delPred, hnorec r hr]
    refine ⟨setTable st2 tbl ((getTable st2 tbl).filter
      (fun r => ! DbService.delPred (.val v) r)), ?_⟩
    simp [DbService.delete, hfail2, h3]

/-- Witness for C3 at concrete empty states. -/
theorem c3_notfound_handling_witness :
    assocGet stEmptyA.testAssessments "a" = none ∧ stEmptyA.fail = none ∧
    (∀ r ∈ stEmptyA.assessmentsTable, r.id ≠ "a") ∧ stDbEmpty.fail = none ∧
    (∀ r ∈ getTable stDbEmpty "t", getField r "id" ≠ some (.s "a")) ∧
    (Assessment.update true stEmptyA "a" "q" 7 =
      .error (.jsError ("Assessment with ID " ++ "a" ++ " not found")) ∧
    Assessment.delete true stEmptyA "a" =
      .error (.jsError ("Assessment with ID " ++ "a" ++ " not found")) ∧
    Assessment.update false stEmptyA "a" "q" 7 = .ok (.prod ⟨none, "q"⟩, stEmptyA) ∧
    Assessment.delete false stEmptyA "a" = .ok (true, stEmptyA) ∧
    (∃ st', DbService.delete stDbEmpty "t" (.val (.s "a")) = .ok (false, st'))) :=
  ⟨rfl, rfl, by decide, rfl, by decide,
    c3_notfound_handling stEmptyA "a" "q" 7 stDbEmpty "t" (.s "a")
      rfl rfl (by decide) rfl (by decide)⟩

/-- C4: for an existing assessment, `Assessment.update(id, newData)`
changes only the payload field and the update timestamp. In test mode
the stored object keeps its id, userId and createdAt and gets the new
assessmentData and `updatedAt = now`, with every other key of the store
untouched; in production mode every row keeps its id, user_id and
created_at, the rows with the target id get the serialized new payload
and `updated_at = now`, and all other rows are unchanged. -/
theorem c4_update_frame (st : AmState) (id : String) (p : Payload) (t : Nat) :
    (∀ old, assocGet st.testAssessments id = some old →
      ∀ res, Assessment.update true st id p t = .ok res →
        res.1 = .mem ⟨old.id, old.userId, p, old.createdAt, t⟩ ∧
        assocGet res.2.testAssessments id =
          some ⟨old.id, old.userId, p, old.createdAt, t⟩ ∧
        (∀ k, k ≠ id →
          assocGet res.2.testAssessments k = assocGet st.testAssessments k) ∧
        res.2.assessmentsTable = st.assessmentsTable) ∧
    (st.fail = none →
      ∀ res, Assessment.update false st id p t = .ok res →
        res.2.testAssessments = st.testAssessments ∧
        res.2.assessmentsTable.length = st.assessmentsTable.length ∧
        ∀ i (h1 : i < st.assessmentsTable.length)
            (h2 : i < res.2.assessmentsTable.length),
          (res.2.assessmentsTable.get ⟨i, h2⟩).id =
            (st.assessmentsTable.get ⟨i, h1⟩).id ∧
          (res.2.assessmentsTable.get ⟨i, h2⟩).user_id =
            (st.assessmentsTable.get ⟨i, h1⟩).user_id ∧
          (res.2.assessmentsTable.get ⟨i, h2⟩).created_at =
            (st.assessmentsTable.get ⟨i, h1⟩).created_at ∧
          ((st.assessmentsTable.get ⟨i, h1⟩).id = id →
            (res.2.assessmentsTable.get ⟨i, h2⟩).assessment_data =
              jsonStringify p ∧
            (res.2.assessmentsTable.get ⟨i, h2⟩).updated_at = t) ∧
          ((st.assessmentsTable.get ⟨i, h1⟩).id ≠ id →
            res.2.assessmentsTable.get ⟨i, h2⟩ =
              st.assessmentsTable.get ⟨i, h1⟩)) := by
  constructor
  · intro old hold res h
    simp only [Assessment.update, if_true, hold] at h
    rw [Except.ok.injEq] at h
    subst h
    refine ⟨rfl, ?_, ?_, rfl⟩
    · exact assocGet_assocSet_self _ _ _
    · intro k hk
      exact assocGet_assocSet_ne _ _ _ _ hk
  · intro hfail res h
    obtain ⟨ta, at0, fl⟩ := st
    have hfl : fl = none := hfail
    subst hfl
    simp only [Assessment.update, Bool.false_eq_true, if_false] at h
    rw [findById_prod_eq ⟨ta, at0.map (fun r =>
      if r.id = id then
        { r with assessment_data := jsonStringify p, updated_at := t }
      else r), none⟩ id rfl] at h
    simp only [Except.ok.injEq] at h
    subst h
    refine ⟨rfl, by simp, ?_⟩
    intro i h1 h2
    rw [get_map_eq _ _ i h1 h2]
    by_cases hid : (at0.get ⟨i, h1⟩).id = id
    · simp only [List.get_eq_getElem] at hid ⊢
      simp [hid]
    · simp only [List.get_eq_getElem] at hid ⊢
      simp [hid]

/-- A state holding the test record `recC2` and the stale row `rowC2`. -/
def stC4 : AmState :=
  { testAssessments := [("a", recC2)], assessmentsTable := [rowC2], fail := none }

/-- The state after the test-mode update of `"a"` in `stC4`. -/
def stC4upd : AmState :=
  { testAssessments := [("a", ⟨"a", "u", "q", 0, 9⟩)], assessmentsTable := [rowC2],
    fail := none }

/-- Witness for C4 at a concrete test-mode update. -/
theorem c4_update_frame_witness :
    assocGet stC4.testAssessments "a" = some recC2 ∧
    Assessment.update true stC4 "a" "q" 9 =
      .ok (.mem ⟨"a", "u", "q", 0, 9⟩, stC4upd) ∧
    stC4upd.assessmentsTable = stC4.assessmentsTable :=
  ⟨by decide, by decide,
    ((c4_update_frame stC4 "a" "q" 9).1 recC2 (by decide)
      (.mem ⟨"a", "u", "q", 0, 9⟩, stC4upd) (by decide)).2.2.2⟩

/-- C5: every entry of the list returned by `Assessment.listByUser`
carries the queried user id as its owning user identifier, in test mode
(in-memory filter) and in production mode (SQL `WHERE user_id = ?`)
alike. -/
theorem c5_listByUser_owner (tm : Bool) (st : AmState) (u : String)
    (l : List Assessment.Listed) (h : Assessment.listByUser tm st u = .ok l) :
    ∀ x ∈ l, x.ownerId = u := by
  cases tm with
  | true =>
    simp only [Assessment.listByUser, if_true] at h
    rw [Except.ok.injEq] at h
    subst h
    intro x hx
    simp only [List.mem_map] at hx
    obtain ⟨r, hr, hxr⟩ := hx
    rw [List.mem_filter] at hr
    rw [← hxr]
    simpa [Assessment.Listed.ownerId] using of_decide_eq_true hr.2
  | false =>
    cases hf : st.fail with
    | some e => simp [Assessment.listByUser, hf] at h
    | none =>
      simp only [Assessment.listByUser, Bool.false_eq_true, if_false, hf] at h
      intro x hx
      obtain ⟨r, hr, hfr⟩ := exceptMapM_ok_mem _ _ _ h x hx
      rw [Assessment.sortRowsByCreatedDesc] at hr
      have hmem := (mem_descSort _ r _).mp hr
      rw [List.mem_filter] at hmem
      have huser : r.user_id = u := of_decide_eq_true hmem.2
      cases hparse : jsonParse r.assessment_data with
      | none => simp [hparse] at hfr
      | some q =>
        simp only [hparse, Except.ok.injEq] at hfr
        rw [← hfr]
        simpa [Assessment.Listed.ownerId] using huser

/-- A test-mode state holding one record owned by `"u"`. -/
def stC5 : AmState :=
  { testAssessments := [("a", recC2)], assessmentsTable := [], fail := none }

/-- Witness for C5 at a concrete test-mode listing. -/
theorem c5_listByUser_owner_witness :
    Assessment.listByUser true stC5 "u" = .ok [.mem recC2] ∧
    (∀ x ∈ [Assessment.Listed.mem recC2], x.ownerId = "u") :=
  ⟨by decide, c5_listByUser_owner true stC5 "u" [.mem recC2] (by decide)⟩

theorem head?_mem {α : Type} {l : List α} {a : α} (h : l.head? = some a) : a ∈ l := by
  cases l with
  | nil => cases h
  | cons x xs =>
    rw [List.head?_cons, Option.some.injEq] at h
    rw [← h]
    exact List.mem_cons_self x xs

theorem length_pos_filter_iff {α : Type} (p : α → Bool) (l : List α) :
    0 < (l.filter p).length ↔ ∃ r ∈ l, p r = true := by
  rw [List.length_pos]
  constructor
  · intro hne
    obtain ⟨x, hx⟩ := List.exists_mem_of_ne_nil _ hne
    rcases List.mem_filter.mp hx with ⟨hm, hp⟩
    exact ⟨x, hm, hp⟩
  · rintro ⟨r, hm, hp⟩
    intro hnil
    have hmem := List.mem_filter.mpr ⟨hm, hp⟩
    rw [hnil] at hmem
    simp at hmem

/-- C9: `DbService.delete(table, option)` with a non-null object deletes
exactly the records matching the conjunction of all listed field–value
pairs, and with a non-object option deletes by the `id` field; in both
shapes it resolves `true` iff at least one record was deleted, the
remaining rows of the table are exactly the non-matching ones, and no
other table is touched. -/
theorem c9_delete_semantics (st : DbState) (tbl : String) (conds : JsRec) (v : Val)
    (hfail : st.fail = none) :
    (∀ res, DbService.delete st tbl (.obj conds) = .ok res →
      (res.1 = true ↔ ∃ r ∈ getTable st tbl,
        ∀ kv ∈ conds, getField r kv.1 = some kv.2) ∧
      getTable res.2 tbl = (getTable st tbl).filter
        (fun r => ! conds.all (fun kv => decide (getField r kv.1 = some kv.2))) ∧
      (∀ t', t' ≠ tbl → getTable res.2 t' = getTable st t')) ∧
    (∀ res, DbService.delete st tbl (.val v) = .ok res →
      (res.1 = true ↔ ∃ r ∈ getTable st tbl, getField r "id" = some v) ∧
      getTable res.2 tbl = (getTable st tbl).filter
        (fun r => ! decide (getField r "id" = some v)) ∧
      (∀ t', t' ≠ tbl → getTable res.2 t' = getTable st t')) := by
  have key : ∀ o : DbService.DelOption, ∀ res, DbService.delete st tbl o = .ok res →
      (res.1 = true ↔ ∃ r ∈ getTable st tbl, DbService.delPred o r = true) ∧
      getTable res.2 tbl = (getTable st tbl).filter
        (fun r => ! DbService.delPred o r) ∧
      (∀ t', t' ≠ tbl → getTable res.2 t' = getTable st t') := by
    intro o res h
    simp only [DbService.delete, hfail] at h
    rw [Except.ok.injEq] at h
    subst h
    refine ⟨?_, ?_, ?_⟩
    · simp only [decide_eq_true_eq]
      exact length_pos_filter_iff _ _
    · exact getTable_setTable_self _ _ _
    · intro t' ht'
      exact getTable_setTable_ne _ _ _ _ ht'
  constructor
  · intro res h
    obtain ⟨h1, h2, h3⟩ := key (.obj conds) res h
    refine ⟨?_, h2, h3⟩
    rw [h1]
    constructor
    · rintro ⟨r, hm, hp⟩
      have hp' : conds.all (fun kv => decide (getField r kv.1 = some kv.2)) = true := hp
      refine ⟨r, hm, ?_⟩
      intro kv hkv
      exact of_decide_eq_true (List.all_eq_true.mp hp' kv hkv)
    · rintro ⟨r, hm, hp⟩
      refine ⟨r, hm, ?_⟩
      show conds.all (fun kv => decide (getField r kv.1 = some kv.2)) = true
      apply List.all_eq_true.mpr
      intro kv hkv
      exact decide_eq_true (hp kv hkv)
  · intro res h
    obtain ⟨h1, h2, h3⟩ := key (.val v) res h
    refine ⟨?_, h2, h3⟩
    rw [h1]
    constructor
    · rintro ⟨r, hm, hp⟩
      exact ⟨r, hm, of_decide_eq_true hp⟩
    · rintro ⟨r, hm, hp⟩
      exact ⟨r, hm, decide_eq_true hp⟩

/-- A DbService state with one two-row table `"t"`. -/
def stC9 : DbState :=
  { tables := [("t", [[("id", .s "1"), ("user_id", .s "u")],
      [("id", .s "2"), ("user_id", .s "u")]])], fail := none }

/-- The state after deleting every row of `"t"` matching
`{user_id: "u"}` in `stC9`. -/
def stC9del : DbState := { tables := [("t", [])], fail := none }

/-- Witness for C9 at a concrete conditions-object delete. -/
theorem c9_delete_semantics_witness :
    stC9.fail = none ∧
    DbService.delete stC9 "t" (.obj [("user_id", .s "u")]) = .ok (true, stC9del) ∧
    getTable stC9del "t" = (getTable stC9 "t").filter
      (fun r => ! [("user_id", Val.s "u")].all
        (fun kv => decide (getField r kv.1 = some kv.2))) :=
  ⟨rfl, by decide,
    ((c9_delete_semantics stC9 "t" [("user_id", .s "u")] (.s "1") rfl).1
      (true, stC9del) (by decide)).2.1⟩

/-- The user's conversations, most recently updated first, as queried
by `getConversationsWithPreviews`. -/
def userConvsSorted (st : DbState) (u : Val) : List JsRec :=
  sortByFieldDesc "updated_at" (whereEq "user_id" u (getTable st "conversations"))

/-- C6: `DbService.getConversationsWithPreviews(userId)` returns exactly
one entry per conversation of that user; the i-th entry carries the
i-th listed conversation's id and updated_at, and its preview is the
first 50 characters of that conversation's most recent message content,
or the empty string when the conversation has no messages. (The
hypothesis says every chat message stores string content, as the schema
requires; otherwise `content.substring` would throw.) -/
theorem c6_conversation_previews (st : DbState) (u : Val)
    (hfail : st.fail = none)
    (hcontent : ∀ m ∈ getTable st "chat_messages",
      ∃ s, getField m "content" = some (.s s)) :
    ∃ out, DbService.getConversationsWithPreviews st u = .ok out ∧
      out.length = (whereEq "user_id" u (getTable st "conversations")).length ∧
      ∀ i (h1 : i < (userConvsSorted st u).length) (h2 : i < out.length),
        (out.get ⟨i, h2⟩).id =
          getField ((userConvsSorted st u).get ⟨i, h1⟩) "id" ∧
        (out.get ⟨i, h2⟩).lastMessageDate =
          getField ((userConvsSorted st u).get ⟨i, h1⟩) "updated_at" ∧
        (∀ m, DbService.latestMessage st
            (getField ((userConvsSorted st u).get ⟨i, h1⟩) "id") = some m →
          ∀ s, getField m "content" = some (.s s) →
            (out.get ⟨i, h2⟩).preview = s.take 50) ∧
        (DbService.latestMessage st
            (getField ((userConvsSorted st u).get ⟨i, h1⟩) "id") = none →
          (out.get ⟨i, h2⟩).preview = "") := by
  have hok : ∀ conv ∈ userConvsSorted st u,
      ∃ pv, DbService.previewOf st conv = .ok pv := by
    intro conv _
    cases hl : DbService.latestMessage st (getField conv "id") with
    | none =>
      exact ⟨⟨getField conv "id", getField conv "updated_at", ""⟩,
        by simp [DbService.previewOf, hl]⟩
    | some m =>
      have hm : m ∈ getTable st "chat_messages" := by
        have hl' := hl
        rw [DbService.latestMessage] at hl'
        have hmem := head?_mem hl'
        rw [sortByFieldDesc] at hmem
        exact (List.mem_filter.mp ((mem_descSort _ _ _).mp hmem)).1
      obtain ⟨s, hs⟩ := hcontent m hm
      exact ⟨⟨getField conv "id", getField conv "updated_at", s.take 50⟩,
        by simp [DbService.previewOf, hl, hs]⟩
  obtain ⟨out, hout, hlen, hidx⟩ := exceptMapM_ok_of_forall _ _ hok
  refine ⟨out, ?_, ?_, ?_⟩
  · simp only [DbService.getConversationsWithPreviews, hfail]
    exact hout
  · rw [hlen]
    rw [userConvsSorted, sortByFieldDesc]
    exact length_descSort _ _
  · intro i h1 h2
    have hfi := hidx i h1 h2
    cases hl : DbService.latestMessage st
        (getField ((userConvsSorted st u).get ⟨i, h1⟩) "id") with
    | none =>
      simp only [DbService.previewOf, hl] at hfi
      rw [Except.ok.injEq] at hfi
      refine ⟨by rw [← hfi], by rw [← hfi], ?_, ?_⟩
      · intro m hm2 s hs2
        cases hm2
      · intro _
        rw [← hfi]
    | some m =>
      have hm' : m ∈ getTable st "chat_messages" := by
        have hl' := hl
        rw [DbService.latestMessage] at hl'
        have hmem := head?_mem hl'
        rw [sortByFieldDesc] at hmem
        exact (List.mem_filter.mp ((mem_descSort _ _ _).mp hmem)).1
      obtain ⟨s, hs⟩ := hcontent m hm'
      simp only [DbService.previewOf, hl, hs] at hfi
      rw [Except.ok.injEq] at hfi
      refine ⟨by rw [← hfi], by rw [← hfi], ?_, ?_⟩
      · intro m2 hm2 s2 hs2
        rw [Option.some.injEq] at hm2
        subst hm2
        rw [hs, Option.some.injEq, Val.s.injEq] at hs2
        subst hs2
        rw [← hfi]
      · intro hnone
        cases hnone

/-- A conversation of user `"u"` updated at time 5. -/
def c6conv1 : JsRec := [("id", .s "c1"), ("user_id", .s "u"), ("updated_at", .n 5)]

/-- A conversation of user `"u"` with no messages, updated at time 3. -/
def c6conv2 : JsRec := [("id", .s "c2"), ("user_id", .s "u"), ("updated_at", .n 3)]

/-- The only chat message, in conversation `"c1"`. -/
def c6msg1 : JsRec :=
  [("id", .s "m1"), ("conversation_id", .s "c1"), ("content", .s "hello"),
    ("created_at", .n 1)]

/-- DbService state with two conversations of `"u"` and one message. -/
def stC6 : DbState :=
  { tables := [("conversations", [c6conv1, c6conv2]), ("chat_messages", [c6msg1])],
    fail := none }

/-- Every chat message of `stC6` stores string content. -/
theorem stC6_content_strings :
    ∀ m ∈ getTable stC6 "chat_messages", ∃ s, getField m "content" = some (.s s) := by
  intro m hm
  have ht : getTable stC6 "chat_messages" = [c6msg1] := by decide
  rw [ht, List.mem_singleton] at hm
  subst hm
  exact ⟨"hello", by decide⟩

/-- Witness for C6 at `stC6`. -/
theorem c6_conversation_previews_witness :
    stC6.fail = none ∧
    (∀ m ∈ getTable stC6 "chat_messages",
      ∃ s, getField m "content" = some (.s s)) ∧
    (∃ out, DbService.getConversationsWithPreviews stC6 (.s "u") = .ok out ∧
      out.length =
        (whereEq "user_id" (.s "u") (getTable stC6 "conversations")).length ∧
      ∀ i (h1 : i < (userConvsSorted stC6 (.s "u")).length) (h2 : i < out.length),
        (out.get ⟨i, h2⟩).id =
          getField ((userConvsSorted stC6 (.s "u")).get ⟨i, h1⟩) "id" ∧
        (out.get ⟨i, h2⟩).lastMessageDate =
          getField ((userConvsSorted stC6 (.s "u")).get ⟨i, h1⟩) "updated_at" ∧
        (∀ m, DbService.latestMessage stC6
            (getField ((userConvsSorted stC6 (.s "u")).get ⟨i, h1⟩) "id") =
              some m →
          ∀ s, getField m "content" = some (.s s) →
            (out.get ⟨i, h2⟩).preview = s.take 50) ∧
        (DbService.latestMessage stC6
            (getField ((userConvsSorted stC6 (.s "u")).get ⟨i, h1⟩) "id") = none →
          (out.get ⟨i, h2⟩).preview = "")) :=
  ⟨rfl, stC6_content_strings,
    c6_conversation_previews stC6 (.s "u") rfl stC6_content_strings⟩
